import Mathlib

/-!
Verification of the salary-tracker application (`src/app.py`).

The application keeps one SQLite table `salaries(month TEXT PRIMARY KEY,
salary INTEGER NOT NULL, updated_at TEXT NOT NULL)` and derives views from
it with pandas.  We embed the table as a list of rows whose salary cell is
a dynamically typed SQLite value (SQLite does not enforce the declared
column affinity, and `load_data` defends against non-numeric cells), and
embed each store operation and aggregation function of `app.py` as a Lean
function over that model.
-/

namespace SalaryTracker

/-- A value stored in the `salary` column.  SQLite is dynamically typed:
`num n` is a numeric cell holding the integer `n` (the only kind
`upsert_month` ever writes, via `int(salary)`); `nonNum s` is a stored cell
that `pd.to_numeric(..., errors := coerce)` cannot interpret as a number. -/
inductive StoredValue where
  | num (n : ℤ)
  | nonNum (s : String)
deriving DecidableEq

/-- A raw row of the `salaries` table: `month TEXT PRIMARY KEY`,
`salary` (dynamically typed cell), `updated_at TEXT`. -/
structure RawRow where
  month : String
  salary : StoredValue
  updated_at : String
deriving DecidableEq

/-- A row of the DataFrame returned by `load_data`: the salary has been
coerced to an integer. -/
structure SalaryRow where
  month : String
  salary : ℤ
  updated_at : String
deriving DecidableEq

/-- `upsert_month` (app.py lines 40-53): `INSERT ... ON CONFLICT(month) DO
UPDATE SET salary=excluded.salary, updated_at=excluded.updated_at`.
If a row with the same month key exists it is updated in place, otherwise a
new row is inserted.  `now` stands for `datetime.now().isoformat()`.
There is no validation of `month` or `salary` anywhere in the function.
`replaceRow` is the `DO UPDATE` action applied on a conflicting row. -/
def replaceRow (month : String) (salary : ℤ) (now : String) (r : RawRow) :
    RawRow :=
  if r.month = month then ⟨month, StoredValue.num salary, now⟩ else r

/-- see `replaceRow`: the upsert of app.py lines 40-53. -/
def upsert_month (tbl : List RawRow) (month : String) (salary : ℤ)
    (now : String) : List RawRow :=
  if tbl.any (fun r => r.month = month) then
    tbl.map (replaceRow month salary now)
  else
    tbl ++ [⟨month, StoredValue.num salary, now⟩]

/-- `delete_month` (app.py lines 56-59): `DELETE FROM salaries WHERE
month = ?` keeps exactly the rows whose month differs. -/
def delete_month (tbl : List RawRow) (month : String) : List RawRow :=
  tbl.filter (fun r => ¬ r.month = month)

/-- byte-wise (code-point) lexicographic order on character lists; SQLite
compares TEXT values with memcmp, which on the ASCII month keys used by the
app coincides with this order. -/
def charListLe : List Char → List Char → Bool
  | [], _ => true
  | _ :: _, [] => false
  | a :: as, b :: bs =>
    if a = b then charListLe as bs else decide (a.toNat < b.toNat)

/-- `ORDER BY month` comparison on the TEXT month keys. -/
def monthLe (a b : RawRow) : Prop := charListLe a.month.data b.month.data

instance : DecidableRel monthLe := fun a b => by
  unfold monthLe; infer_instance

/-- the coercion `pd.to_numeric(col, errors="coerce").fillna(0)` applied to
one stored cell: a numeric cell keeps its value, a non-numeric cell becomes
`NaN` and then `0`. -/
def coerceSalary : StoredValue → ℤ
  | .num n => n
  | .nonNum _ => 0

/-- `load_data` (app.py lines 62-72): `SELECT month, salary, updated_at
FROM salaries ORDER BY month`, then coerce the salary column to integers,
mapping non-numeric cells to 0.  Total: it never raises, whatever is
stored. -/
def load_data (tbl : List RawRow) : List SalaryRow :=
  (List.insertionSort monthLe tbl).map
    (fun r => ⟨r.month, coerceSalary r.salary, r.updated_at⟩)

/-! ## Aggregator (pure pandas pipeline of app.py) -/

/-- numeric value of a digit string, most significant digit first. -/
def digitsVal (cs : List Char) : ℕ :=
  cs.foldl (fun n c => 10 * n + (c.toNat - 48)) 0

/-- the month-key parse performed by `build_timeseries` (app.py line 79):
`pd.to_datetime(month + "-01", format="%Y-%m-%d", errors="coerce")`.
Following strptime, the key must be exactly four year digits, a dash, and a
one- or two-digit month between 1 and 12 (strptime accepts a single digit
month without zero padding); anything else becomes `NaT` and the row is
dropped.  The model treats every four-digit year as in range; pandas would
additionally coerce years outside the `Timestamp` range (1678-2262) to
`NaT`, a region no valid data of this app inhabits. -/
def parseMonth (s : String) : Option (ℕ × ℕ) :=
  match s.data with
  | [y1, y2, y3, y4, '-', m1, m2] =>
    if ([y1, y2, y3, y4, m1, m2].all Char.isDigit)
        ∧ 1 ≤ digitsVal [m1, m2] ∧ digitsVal [m1, m2] ≤ 12 then
      some (digitsVal [y1, y2, y3, y4], digitsVal [m1, m2])
    else none
  | [y1, y2, y3, y4, '-', m1] =>
    if ([y1, y2, y3, y4, m1].all Char.isDigit)
        ∧ 1 ≤ digitsVal [m1] ∧ digitsVal [m1] ≤ 12 then
      some (digitsVal [y1, y2, y3, y4], digitsVal [m1])
    else none
  | _ => none

/-- a DataFrame row of `build_timeseries` after the parse step: the
original columns plus the derived `year` and calendar month number
(`month_date.dt.year` and `.dt.month`). -/
structure ParsedRow where
  month : String
  salary : ℤ
  updated_at : String
  year : ℕ
  monthNum : ℕ
deriving DecidableEq

/-- the parse-and-drop step of `build_timeseries` (app.py lines 79-81):
rows whose month key fails to parse are dropped (`dropna`), the rest keep
their data and gain `year` and month number. -/
def parseRows (df : List SalaryRow) : List ParsedRow :=
  df.filterMap (fun r => (parseMonth r.month).map
    (fun ym => ⟨r.month, r.salary, r.updated_at, ym.1, ym.2⟩))

/-- sort key of `sort_values("month_date")`: the parsed (year, month) as a
single number, ordered exactly like the date `year-month-01`. -/
def monthKey (p : ParsedRow) : ℕ := p.year * 12 + p.monthNum

/-- comparison used for `sort_values("month_date")`. -/
def keyLe (a b : ParsedRow) : Prop := monthKey a ≤ monthKey b

instance : DecidableRel keyLe := fun a b => by
  unfold keyLe; infer_instance

/-- the `cumsum` step: each row is paired with the running total of the
salaries up to and including it, accumulated left to right from `acc`. -/
def addCumulative : ℤ → List ParsedRow → List (ParsedRow × ℤ)
  | _, [] => []
  | acc, p :: rest => (p, acc + p.salary) :: addCumulative (acc + p.salary) rest

/-- `build_timeseries` (app.py lines 75-84): parse the month keys, drop
unparsable rows, sort ascending by month date, add the `year` column and
the running `cumulative` column (the `df.empty` early return yields the
same empty result this pipeline yields). -/
def build_timeseries (df : List SalaryRow) : List (ParsedRow × ℤ) :=
  addCumulative 0 (List.insertionSort keyLe (parseRows df))

/-- Spec-side formula for the cumulative column, transcribed from the
spec: `cumulative[i] = sum(amount[0..i])`, the sum starting from 0. -/
def cumulativeSpec (amounts : List ℤ) : List ℤ :=
  (List.range amounts.length).map (fun i => (amounts.take (i + 1)).sum)

/-- `Series.mean()` followed by `.round(0).astype(int)` on a group with
sum `s` and `n` entries: the exact value `s / n` rounded to the nearest
integer, ties to the even integer (IEEE round-half-even, which is exact on
the means produced here: `n ≤ 12` and the float quotient of such small
operands rounds like the rational one).  Computed on integers: `f` is the
floor of `s / n` and `r2` compares twice the remainder with `n`. -/
def roundMeanDiv (s : ℤ) (n : ℕ) : ℤ :=
  let f := Int.fdiv s n
  let r2 := 2 * (s - f * n)
  if r2 < n then f
  else if (n : ℤ) < r2 then f + 1
  else if f % 2 = 0 then f else f + 1

/-- the salaries of the time-series entries belonging to year `y`
(the groupby fiber of `y`). -/
def groupSalaries (ts : List (ParsedRow × ℤ)) (y : ℕ) : List ℤ :=
  (ts.filter (fun e => e.1.year = y)).map (fun e => e.1.salary)

/-- maximum of a list of amounts, as `Series.max` on a nonempty group. -/
def listMax : List ℤ → ℤ
  | [] => 0
  | [a] => a
  | a :: b :: rest => max a (listMax (b :: rest))

/-- descending order on years, for `sort_values("year", ascending=False)`. -/
def yearGe (a b : ℕ) : Prop := b ≤ a

instance : DecidableRel yearGe := fun a b => by
  unfold yearGe; infer_instance

/-- a row of the `yearly_summary` frame. -/
structure YearRow where
  year : ℕ
  year_total : ℤ
  month_avg : ℤ
  max_month_salary : ℤ
deriving DecidableEq

/-- `yearly_summary` (app.py lines 87-98): group the time series by
`year`; per year take the sum, the mean (`Series.mean`, i.e. sum divided
by the number of entries of that year, then `round(0)`) and the max of the
salaries; one row per distinct year, ordered descending by year. -/
def yearly_summary (ts : List (ParsedRow × ℤ)) : List YearRow :=
  (List.insertionSort yearGe ((ts.map (fun e => e.1.year)).dedup)).map
    (fun y =>
      let g := groupSalaries ts y
      ⟨y, g.sum, roundMeanDiv g.sum g.length, listMax g⟩)

/-- the last value of the cumulative column (0 for an empty series). -/
def finalCumulative (ts : List (ParsedRow × ℤ)) : ℤ :=
  (ts.map Prod.snd).getLastD 0

/-- the fixed savings target of app.py line 8: `TARGET = 1_500_000`. -/
def TARGET : ℤ := 1500000

/-- tab1's year total (app.py line 164): sum of the selected year's
salaries. -/
def year_total_of (ts : List (ParsedRow × ℤ)) (y : ℕ) : ℤ :=
  (groupSalaries ts y).sum

/-- tab1's remaining amount (app.py line 165): `diff = TARGET - year_total`. -/
def tab1_diff (year_total : ℤ) : ℤ := TARGET - year_total

/-- tab1's progress (app.py line 166):
`min(max(year_total / TARGET, 0.0), 1.0)`. -/
def tab1_progress (year_total : ℤ) : ℚ :=
  min (max ((year_total : ℚ) / (TARGET : ℚ)) 0) 1

/-- the monthly-skeleton merge of tab1 (app.py lines 191-203): the rows of
the selected year, keyed by calendar month number, are left-merged onto
the skeleton frame `1..12`; a base month with no matching row keeps `NaN`
(absent), a base month with matching rows yields one slot per match. -/
def monthlySkeleton (ts : List (ParsedRow × ℤ)) (y : ℕ) : List (ℕ × Option ℤ) :=
  (List.range' 1 12).flatMap (fun j =>
    match (ts.filter (fun e => e.1.year = y)).filter
        (fun e => e.1.monthNum = j) with
    | [] => [(j, none)]
    | ms => ms.map (fun e => (j, some e.1.salary)))

/-- Spec-side formula for the skeleton, transcribed from the spec: one
slot per calendar month 1-12 in order; a slot holds the stored amount of
the record of that year and month when there is one, and is explicitly
absent otherwise. -/
def skeletonSpec (ts : List (ParsedRow × ℤ)) (y : ℕ) : List (ℕ × Option ℤ) :=
  (List.range' 1 12).map (fun j =>
    (j, ((ts.filter (fun e => e.1.year = y ∧ e.1.monthNum = j)).head?).map
      (fun e => e.1.salary)))

/-! ## Store lemmas -/

theorem replaceRow_month_eq (m : String) (a : ℤ) (t : String) (r : RawRow) :
    (replaceRow m a t r).month = r.month := by
  unfold replaceRow
  split
  · next h => simp [h]
  · rfl

theorem map_month_map_replaceRow (tbl : List RawRow) (m : String) (a : ℤ)
    (t : String) :
    (tbl.map (replaceRow m a t)).map RawRow.month = tbl.map RawRow.month := by
  rw [List.map_map]
  exact List.map_congr_left (fun r _ => replaceRow_month_eq m a t r)

theorem filter_map_replaceRow_none (m : String) (a : ℤ) (t : String)
    (tbl : List RawRow) (h : ∀ x ∈ tbl, ¬ x.month = m) :
    (tbl.map (replaceRow m a t)).filter (fun r => r.month = m) = [] := by
  rw [List.filter_eq_nil_iff]
  intro b hb
  obtain ⟨x, hx, hxb⟩ := List.mem_map.mp hb
  have : b.month = x.month := by rw [← hxb]; exact replaceRow_month_eq m a t x
  simp only [decide_eq_true_eq]
  rw [this]
  exact h x hx

theorem filter_map_replaceRow (m : String) (a : ℤ) (t : String) :
    ∀ (tbl : List RawRow), (tbl.map RawRow.month).Nodup →
      m ∈ tbl.map RawRow.month →
      (tbl.map (replaceRow m a t)).filter (fun r => r.month = m)
        = [⟨m, StoredValue.num a, t⟩]
  | [], _, hm => by simp at hm
  | r :: rest, hN, hm => by
    by_cases hr : r.month = m
    · have hrest : ∀ x ∈ rest, ¬ x.month = m := by
        intro x hx hxm
        have : r.month ∈ rest.map RawRow.month := by
          rw [hr, ← hxm]; exact List.mem_map_of_mem RawRow.month hx
        exact (List.nodup_cons.mp (by simpa using hN)).1 this
      simp only [List.map_cons, replaceRow, if_pos hr]
      rw [List.filter_cons_of_pos (by simp), filter_map_replaceRow_none m a t rest hrest]
    · have hm2 : m ∈ rest.map RawRow.month := by
        rw [List.map_cons] at hm
        rcases List.mem_cons.mp hm with h | h
        · exact absurd h.symm hr
        · exact h
      simp only [List.map_cons, replaceRow, if_neg hr]
      rw [List.filter_cons_of_neg (by simpa using hr)]
      exact filter_map_replaceRow m a t rest
        (List.nodup_cons.mp (by simpa using hN)).2 hm2

theorem upsert_month_filter (tbl : List RawRow) (m : String) (a : ℤ)
    (t : String) (hN : (tbl.map RawRow.month).Nodup) :
    (upsert_month tbl m a t).filter (fun r => r.month = m)
      = [⟨m, StoredValue.num a, t⟩] := by
  unfold upsert_month
  split
  · next h =>
    obtain ⟨r, hr, hrm⟩ := List.any_eq_true.mp h
    exact filter_map_replaceRow m a t tbl hN
      (List.mem_map.mpr ⟨r, hr, of_decide_eq_true hrm⟩)
  · next h =>
    have hnone : ∀ x ∈ tbl, ¬ x.month = m := by
      intro x hx hxm
      exact (List.any_eq_false.mp (Bool.not_eq_true _ ▸ h) x hx) (by simpa using hxm)
    rw [List.filter_append, List.filter_eq_nil_iff.mpr (by
      intro b hb; simpa using hnone b hb)]
    simp

theorem upsert_month_map_month (tbl : List RawRow) (m : String) (a : ℤ)
    (t : String) :
    (upsert_month tbl m a t).map RawRow.month = tbl.map RawRow.month
      ∨ (upsert_month tbl m a t).map RawRow.month = tbl.map RawRow.month ++ [m]
      := by
  unfold upsert_month
  split
  · exact Or.inl (map_month_map_replaceRow tbl m a t)
  · right; simp

theorem upsert_month_nodup (tbl : List RawRow) (m : String) (a : ℤ)
    (t : String) (hN : (tbl.map RawRow.month).Nodup) :
    ((upsert_month tbl m a t).map RawRow.month).Nodup := by
  unfold upsert_month
  split
  · rw [map_month_map_replaceRow]; exact hN
  · next h =>
    have hnm : m ∉ tbl.map RawRow.month := by
      intro hmem
      obtain ⟨r, hr, hrm⟩ := List.mem_map.mp hmem
      exact (List.any_eq_false.mp (Bool.not_eq_true _ ▸ h) r hr) (by simpa using hrm)
    simp only [List.map_append, List.map_cons, List.map_nil]
    rw [List.nodup_append]
    exact ⟨hN, List.nodup_singleton m, by simpa using hnm⟩

theorem upsert_month_mem_month (tbl : List RawRow) (m : String) (a : ℤ)
    (t : String) : m ∈ (upsert_month tbl m a t).map RawRow.month := by
  unfold upsert_month
  split
  · next h =>
    obtain ⟨r, hr, hrm⟩ := List.any_eq_true.mp h
    rw [map_month_map_replaceRow]
    exact List.mem_map.mpr ⟨r, hr, of_decide_eq_true hrm⟩
  · simp

theorem filter_not_map_replaceRow (m : String) (a : ℤ) (t : String) :
    ∀ (tbl : List RawRow),
      (tbl.map (replaceRow m a t)).filter (fun r => ¬ r.month = m)
        = tbl.filter (fun r => ¬ r.month = m)
  | [] => rfl
  | r :: rest => by
    by_cases hr : r.month = m
    · simp only [List.map_cons, replaceRow, if_pos hr]
      rw [List.filter_cons_of_neg (by simp), List.filter_cons_of_neg (by simp [hr])]
      exact filter_not_map_replaceRow m a t rest
    · simp only [List.map_cons, replaceRow, if_neg hr]
      rw [List.filter_cons_of_pos (by simpa using hr),
        List.filter_cons_of_pos (by simpa using hr)]
      rw [filter_not_map_replaceRow m a t rest]

theorem upsert_month_filter_not (tbl : List RawRow) (m : String) (a : ℤ)
    (t : String) :
    (upsert_month tbl m a t).filter (fun r => ¬ r.month = m)
      = tbl.filter (fun r => ¬ r.month = m) := by
  unfold upsert_month
  split
  · exact filter_not_map_replaceRow m a t tbl
  · rw [List.filter_append]
    simp

theorem upsert_month_unique_row (tbl : List RawRow) (m : String) (a : ℤ)
    (t : String) (hN : (tbl.map RawRow.month).Nodup) :
    ∀ r ∈ upsert_month tbl m a t, r.month = m →
      r = ⟨m, StoredValue.num a, t⟩ := by
  intro r hr hrm
  have : r ∈ (upsert_month tbl m a t).filter (fun r => r.month = m) :=
    List.mem_filter.mpr ⟨hr, by simpa using hrm⟩
  rw [upsert_month_filter tbl m a t hN] at this
  simpa using this

theorem upsert_month_of_mem (tbl : List RawRow) (m : String) (a : ℤ)
    (t : String) (hm : m ∈ tbl.map RawRow.month) :
    upsert_month tbl m a t = tbl.map (replaceRow m a t) := by
  obtain ⟨r, hr, hrm⟩ := List.mem_map.mp hm
  unfold upsert_month
  rw [if_pos (List.any_eq_true.mpr ⟨r, hr, decide_eq_true hrm⟩)]

/-- **C4.** `upsert(m, a1)` then `upsert(m, a2)` leaves exactly one record
for `m`, holding amount `a2` and the second timestamp; the month column
stays duplicate-free; other months are untouched; repeating an upsert with
the same amount is idempotent on the stored (month, amount) pairs while
the record for `m` still gets the fresh timestamp. -/
theorem upsert_twice_overwrites (tbl : List RawRow) (m : String)
    (a1 a2 a3 : ℤ) (t1 t2 t3 t4 : String)
    (hN : (tbl.map RawRow.month).Nodup) :
    (upsert_month (upsert_month tbl m a1 t1) m a2 t2).filter
        (fun r => r.month = m) = [⟨m, StoredValue.num a2, t2⟩]
    ∧ ((upsert_month (upsert_month tbl m a1 t1) m a2 t2).map
        RawRow.month).Nodup
    ∧ (upsert_month (upsert_month tbl m a1 t1) m a2 t2).filter
        (fun r => ¬ r.month = m) = tbl.filter (fun r => ¬ r.month = m)
    ∧ (upsert_month (upsert_month tbl m a3 t3) m a3 t4).map
        (fun r => (r.month, r.salary))
      = (upsert_month tbl m a3 t3).map (fun r => (r.month, r.salary))
    ∧ (upsert_month (upsert_month tbl m a3 t3) m a3 t4).filter
        (fun r => r.month = m) = [⟨m, StoredValue.num a3, t4⟩] := by
  have hN1 : ((upsert_month tbl m a1 t1).map RawRow.month).Nodup :=
    upsert_month_nodup tbl m a1 t1 hN
  have hN3 : ((upsert_month tbl m a3 t3).map RawRow.month).Nodup :=
    upsert_month_nodup tbl m a3 t3 hN
  refine ⟨upsert_month_filter _ m a2 t2 hN1,
    upsert_month_nodup _ m a2 t2 hN1,
    ?_, ?_, upsert_month_filter _ m a3 t4 hN3⟩
  · rw [upsert_month_filter_not, upsert_month_filter_not]
  · have hmem : m ∈ (upsert_month tbl m a3 t3).map RawRow.month :=
      upsert_month_mem_month tbl m a3 t3
    rw [upsert_month_of_mem _ m a3 t4 hmem, List.map_map]
    refine List.map_congr_left ?_
    intro r hr
    by_cases hrm : r.month = m
    · have : r = ⟨m, StoredValue.num a3, t3⟩ :=
        upsert_month_unique_row tbl m a3 t3 hN r hr hrm
      subst this
      simp [replaceRow]
    · simp [Function.comp, replaceRow, if_neg hrm]

/-- **C4 witness**: two upserts of `2025-01` into the empty store at
concrete amounts and timestamps. -/
theorem upsert_twice_overwrites_witness :
    (([] : List RawRow).map RawRow.month).Nodup
    ∧ ((upsert_month (upsert_month [] "2025-01" 100 "t1") "2025-01" 200 "t2").filter
        (fun r => r.month = "2025-01") = [⟨"2025-01", StoredValue.num 200, "t2"⟩]
      ∧ ((upsert_month (upsert_month [] "2025-01" 100 "t1") "2025-01" 200 "t2").map
          RawRow.month).Nodup
      ∧ (upsert_month (upsert_month [] "2025-01" 100 "t1") "2025-01" 200 "t2").filter
          (fun r => ¬ r.month = "2025-01")
        = ([] : List RawRow).filter (fun r => ¬ r.month = "2025-01")
      ∧ (upsert_month (upsert_month [] "2025-01" 300 "t3") "2025-01" 300 "t4").map
          (fun r => (r.month, r.salary))
        = (upsert_month [] "2025-01" 300 "t3").map (fun r => (r.month, r.salary))
      ∧ (upsert_month (upsert_month [] "2025-01" 300 "t3") "2025-01" 300 "t4").filter
          (fun r => r.month = "2025-01") = [⟨"2025-01", StoredValue.num 300, "t4"⟩]) :=
  ⟨by decide,
    upsert_twice_overwrites [] "2025-01" 100 200 300 "t1" "t2" "t3" "t4" (by decide)⟩

/-- **C5 counterexample**: `upsert_month` applied to a malformed month key
and a negative amount does not reject the write: the store changes (and no
error of any kind is raised — the embedded operation is total). -/
theorem upsert_malformed_writes_counterexample :
    upsert_month [] "bad-month" (-5) "2026-02-03T00:00:00"
      = [⟨"bad-month", StoredValue.num (-5), "2026-02-03T00:00:00"⟩]
    ∧ upsert_month [] "bad-month" (-5) "2026-02-03T00:00:00" ≠ [] := by
  constructor
  · rfl
  · decide

/-- **C5 amended.** `Store.upsert` performs no validation: for every month
key (malformed ones included) and every amount (negative ones included)
the record is written into the store, never rejected. -/
theorem upsert_no_validation (tbl : List RawRow) (m : String) (a : ℤ)
    (t : String) :
    (⟨m, StoredValue.num a, t⟩ : RawRow) ∈ upsert_month tbl m a t := by
  unfold upsert_month
  split
  · next h =>
    obtain ⟨r, hr, hrm⟩ := List.any_eq_true.mp h
    refine List.mem_map.mpr ⟨r, hr, ?_⟩
    simp [replaceRow, of_decide_eq_true hrm]
  · simp

/-- **C8.** deleting a month that is not in the store leaves the store
unchanged (and the embedded operation is total: no error is raised). -/
theorem delete_month_no_op (tbl : List RawRow) (m : String)
    (hm : m ∉ tbl.map RawRow.month) : delete_month tbl m = tbl := by
  unfold delete_month
  rw [List.filter_eq_self]
  intro r hr
  simp only [decide_eq_true_eq]
  intro he
  exact hm (List.mem_map.mpr ⟨r, hr, he⟩)

/-- **C8 witness**: deleting `2024-01` from a store holding only
`2024-02`. -/
theorem delete_month_no_op_witness :
    ("2024-01" ∉ ([⟨"2024-02", StoredValue.num 5, "t"⟩] : List RawRow).map
        RawRow.month)
    ∧ delete_month [⟨"2024-02", StoredValue.num 5, "t"⟩] "2024-01"
        = [⟨"2024-02", StoredValue.num 5, "t"⟩] :=
  ⟨by decide, delete_month_no_op _ _ (by decide)⟩

/-- **C9.** `load_data` never fails: it returns exactly one output row per
stored row whatever the stored salary cells hold, and a row whose salary
cell is non-numeric is loaded with salary 0. -/
theorem load_data_coerces (raw : List RawRow) :
    (load_data raw).length = raw.length
    ∧ ∀ m s t, (⟨m, StoredValue.nonNum s, t⟩ : RawRow) ∈ raw →
        (⟨m, 0, t⟩ : SalaryRow) ∈ load_data raw := by
  constructor
  · unfold load_data
    rw [List.length_map]
    exact (List.perm_insertionSort monthLe raw).length_eq
  · intro m s t h
    unfold load_data
    refine List.mem_map.mpr ⟨⟨m, StoredValue.nonNum s, t⟩, ?_, rfl⟩
    exact ((List.perm_insertionSort monthLe raw).mem_iff).mpr h

/-- **C9 witness**: a store with one numeric and one non-numeric salary
cell loads with the non-numeric cell coerced to 0. -/
theorem load_data_coerces_witness :
    ((⟨"2024-02", StoredValue.nonNum "oops", "t1"⟩ : RawRow)
        ∈ [⟨"2024-02", StoredValue.nonNum "oops", "t1"⟩,
           ⟨"2024-01", StoredValue.num 5, "t0"⟩])
    ∧ (⟨"2024-02", 0, "t1"⟩ : SalaryRow)
        ∈ load_data [⟨"2024-02", StoredValue.nonNum "oops", "t1"⟩,
           ⟨"2024-01", StoredValue.num 5, "t0"⟩] :=
  ⟨by decide,
    (load_data_coerces _).2 "2024-02" "oops" "t1" (by decide)⟩

/-! ## Aggregator lemmas -/

theorem parseMonth_bounds {s : String} {y m : ℕ}
    (h : parseMonth s = some (y, m)) : 1 ≤ m ∧ m ≤ 12 := by
  unfold parseMonth at h
  split at h
  · split_ifs at h with hc
    obtain ⟨hd, h1, h2⟩ := hc
    simp only [Option.some.injEq, Prod.mk.injEq] at h
    obtain ⟨hy, hm⟩ := h
    omega
  · split_ifs at h with hc
    obtain ⟨hd, h1, h2⟩ := hc
    simp only [Option.some.injEq, Prod.mk.injEq] at h
    obtain ⟨hy, hm⟩ := h
    omega
  · exact absurd h (by simp)

theorem parseRows_mem {df : List SalaryRow} {p : ParsedRow}
    (hp : p ∈ parseRows df) :
    parseMonth p.month = some (p.year, p.monthNum)
    ∧ (⟨p.month, p.salary, p.updated_at⟩ : SalaryRow) ∈ df := by
  obtain ⟨r, hr, hrp⟩ := List.mem_filterMap.mp hp
  cases hparse : parseMonth r.month with
  | none => rw [hparse] at hrp; simp at hrp
  | some ym =>
    rw [hparse] at hrp
    simp only [Option.map_some', Option.some.injEq] at hrp
    subst hrp
    exact ⟨by simpa using hparse, hr⟩

theorem addCumulative_map_fst : ∀ (acc : ℤ) (l : List ParsedRow),
    (addCumulative acc l).map Prod.fst = l
  | _, [] => rfl
  | acc, p :: rest => by
    simp only [addCumulative, List.map_cons]
    rw [addCumulative_map_fst (acc + p.salary) rest]

theorem cumulativeSpec_cons (a : ℤ) (l : List ℤ) :
    cumulativeSpec (a :: l) = a :: (cumulativeSpec l).map (fun s => a + s) := by
  unfold cumulativeSpec
  rw [List.length_cons, List.range_succ_eq_map]
  simp only [List.map_cons, List.map_map]
  refine congrArg₂ List.cons (by simp) ?_
  refine List.map_congr_left ?_
  intro i _
  simp [Function.comp, List.take_succ_cons]

theorem addCumulative_map_snd : ∀ (acc : ℤ) (l : List ParsedRow),
    (addCumulative acc l).map Prod.snd
      = (cumulativeSpec (l.map ParsedRow.salary)).map (fun s => acc + s)
  | _, [] => rfl
  | acc, p :: rest => by
    simp only [addCumulative, List.map_cons, cumulativeSpec_cons]
    refine congrArg₂ List.cons rfl ?_
    rw [addCumulative_map_snd (acc + p.salary) rest, List.map_map]
    refine List.map_congr_left ?_
    intro s _
    simp [Function.comp, add_assoc]

theorem addCumulative_getLastD : ∀ (acc : ℤ) (l : List ParsedRow),
    ((addCumulative acc l).map Prod.snd).getLastD acc
      = acc + (l.map ParsedRow.salary).sum
  | _, [] => by simp [addCumulative]
  | acc, p :: rest => by
    simp only [addCumulative, List.map_cons, List.getLastD_cons]
    rw [addCumulative_getLastD (acc + p.salary) rest]
    simp [add_assoc]

instance : IsTotal ParsedRow keyLe :=
  ⟨fun a b => Nat.le_total (monthKey a) (monthKey b)⟩

instance : IsTrans ParsedRow keyLe :=
  ⟨fun _ _ _ => Nat.le_trans⟩

theorem parseRows_proj : ∀ (df : List SalaryRow),
    (parseRows df).map (fun p => (p.month, p.salary))
      = (df.filter (fun r => (parseMonth r.month).isSome)).map
          (fun r => (r.month, r.salary))
  | [] => rfl
  | r :: rest => by
    have ih := parseRows_proj rest
    cases hparse : parseMonth r.month with
    | none => simp [parseRows, List.filterMap_cons, hparse, List.filter_cons,
        parseRows] at ih ⊢; exact ih
    | some ym => simp [parseRows, List.filterMap_cons, hparse, List.filter_cons,
        parseRows] at ih ⊢; exact ih

theorem build_timeseries_map_fst (df : List SalaryRow) :
    (build_timeseries df).map Prod.fst
      = List.insertionSort keyLe (parseRows df) :=
  addCumulative_map_fst 0 _

theorem build_timeseries_mem (df : List SalaryRow) :
    ∀ e ∈ build_timeseries df, e.1 ∈ parseRows df := by
  intro e he
  have h1 : e.1 ∈ (build_timeseries df).map Prod.fst :=
    List.mem_map_of_mem Prod.fst he
  rw [build_timeseries_map_fst] at h1
  exact (List.perm_insertionSort keyLe (parseRows df)).mem_iff.mp h1

/-- **C1.** `build_timeseries` keeps exactly the rows whose month key
parses (as a permutation of the parseable input rows), is sorted ascending
by (year, month), annotates each entry with the parsed year and month of
its key, computes `cumulative[i] = sum(amount[0..i])` along that order,
and maps empty input to an empty series. -/
theorem build_timeseries_spec (df : List SalaryRow) :
    ((build_timeseries df).map (fun e => (e.1.month, e.1.salary))).Perm
        ((df.filter (fun r => (parseMonth r.month).isSome)).map
          (fun r => (r.month, r.salary)))
    ∧ ((build_timeseries df).map Prod.fst).Pairwise
        (fun a b => a.year < b.year
          ∨ (a.year = b.year ∧ a.monthNum ≤ b.monthNum))
    ∧ (build_timeseries df).map (fun e => parseMonth e.1.month)
        = (build_timeseries df).map (fun e => some (e.1.year, e.1.monthNum))
    ∧ (build_timeseries df).map Prod.snd
        = cumulativeSpec ((build_timeseries df).map (fun e => e.1.salary))
    ∧ build_timeseries ([] : List SalaryRow) = [] := by
  have hperm : (List.insertionSort keyLe (parseRows df)).Perm (parseRows df) :=
    List.perm_insertionSort keyLe (parseRows df)
  refine ⟨?_, ?_, ?_, ?_, rfl⟩
  · have h1 : (build_timeseries df).map (fun e => (e.1.month, e.1.salary))
        = ((build_timeseries df).map Prod.fst).map
            (fun p => (p.month, p.salary)) := by
      rw [List.map_map]; rfl
    rw [h1, build_timeseries_map_fst, ← parseRows_proj df]
    exact hperm.map (fun p => (p.month, p.salary))
  · rw [build_timeseries_map_fst]
    have hs : List.Pairwise keyLe (List.insertionSort keyLe (parseRows df)) :=
      List.sorted_insertionSort keyLe (parseRows df)
    refine List.Pairwise.imp_of_mem ?_ hs
    intro a b ha hb hab
    have hba := parseMonth_bounds (parseRows_mem (hperm.mem_iff.mp ha)).1
    have hbb := parseMonth_bounds (parseRows_mem (hperm.mem_iff.mp hb)).1
    have hk : monthKey a ≤ monthKey b := hab
    unfold monthKey at hk
    omega
  · refine List.map_congr_left ?_
    intro e he
    exact (parseRows_mem (build_timeseries_mem df e he)).1
  · have h2 : (build_timeseries df).map (fun e => e.1.salary)
        = (List.insertionSort keyLe (parseRows df)).map ParsedRow.salary := by
      rw [← build_timeseries_map_fst, List.map_map]; rfl
    rw [h2]
    have h3 := addCumulative_map_snd 0 (List.insertionSort keyLe (parseRows df))
    simpa using h3

theorem chain_addCumulative : ∀ (l : List ParsedRow) (acc : ℤ),
    (∀ p ∈ l, 0 ≤ p.salary) →
    List.Chain' (fun a b : ℤ => a ≤ b)
      (acc :: (addCumulative acc l).map Prod.snd)
  | [], acc, _ => by simp [addCumulative]
  | p :: rest, acc, h => by
    simp only [addCumulative, List.map_cons]
    rw [List.chain'_cons]
    refine ⟨?_, chain_addCumulative rest (acc + p.salary)
      (fun q hq => h q (List.mem_cons_of_mem p hq))⟩
    have := h p (List.mem_cons_self p rest)
    omega

/-- **C10.** when every input amount is non-negative, the cumulative
column of `build_timeseries` is non-decreasing along the series. -/
theorem cumulative_monotone (df : List SalaryRow)
    (h : ∀ r ∈ df, 0 ≤ r.salary) :
    List.Chain' (fun a b : ℤ => a ≤ b)
      ((build_timeseries df).map Prod.snd) := by
  have hsal : ∀ p ∈ List.insertionSort keyLe (parseRows df), 0 ≤ p.salary := by
    intro p hp
    have hpr := (parseRows_mem
      ((List.perm_insertionSort keyLe (parseRows df)).mem_iff.mp hp)).2
    exact h _ hpr
  exact (chain_addCumulative (List.insertionSort keyLe (parseRows df)) 0
    hsal).tail

/-- **C10 witness**: a concrete two-row input with non-negative amounts. -/
theorem cumulative_monotone_witness :
    (∀ r ∈ ([⟨"2024-02", 100, "ta"⟩, ⟨"2024-01", 50, "tb"⟩] :
        List SalaryRow), 0 ≤ r.salary)
    ∧ List.Chain' (fun a b : ℤ => a ≤ b)
        ((build_timeseries
          [⟨"2024-02", 100, "ta"⟩, ⟨"2024-01", 50, "tb"⟩]).map Prod.snd) :=
  ⟨by decide, cumulative_monotone _ (by decide)⟩

theorem roundMeanDiv_close (s : ℤ) (n : ℕ) (hn : 0 < n) :
    |((roundMeanDiv s n : ℤ) : ℚ) - (s : ℚ) / (n : ℚ)| ≤ 1 / 2 := by
  have hnQ : (0 : ℚ) < (n : ℚ) := by exact_mod_cast hn
  have hr0 : 0 ≤ s.fmod n := Int.fmod_nonneg' s (by omega)
  have hrn : s.fmod n < n := Int.fmod_lt_of_pos s (by exact_mod_cast hn)
  have hsum : (n : ℤ) * (s.fdiv n) + s.fmod n = s := Int.fdiv_add_fmod s n
  have hrem : s - s.fdiv n * n = s.fmod n := by
    rw [mul_comm] at hsum
    omega
  have hs : (s : ℚ) = ((s.fdiv n : ℤ) : ℚ) * (n : ℚ) + ((s.fmod n : ℤ) : ℚ) := by
    have := congrArg (fun z : ℤ => (z : ℚ)) hsum
    push_cast at this
    linarith
  have hdiv : (s : ℚ) / (n : ℚ) - ((s.fdiv n : ℤ) : ℚ)
      = ((s.fmod n : ℤ) : ℚ) / (n : ℚ) := by
    rw [hs]
    field_simp
    ring
  have hA : 2 * s.fmod n ≤ (n : ℤ) →
      |((s.fdiv n : ℤ) : ℚ) - (s : ℚ) / (n : ℚ)| ≤ 1 / 2 := by
    intro hle
    have he : ((s.fdiv n : ℤ) : ℚ) - (s : ℚ) / (n : ℚ)
        = -(((s.fmod n : ℤ) : ℚ) / (n : ℚ)) := by linarith
    rw [he, abs_neg, abs_of_nonneg (by positivity)]
    rw [div_le_div_iff₀ hnQ (by norm_num : (0 : ℚ) < 2)]
    have : ((2 * s.fmod n : ℤ) : ℚ) ≤ ((n : ℤ) : ℚ) := by exact_mod_cast hle
    push_cast at this
    linarith
  have hB : (n : ℤ) ≤ 2 * s.fmod n →
      |((s.fdiv n + 1 : ℤ) : ℚ) - (s : ℚ) / (n : ℚ)| ≤ 1 / 2 := by
    intro hge
    have hrn' : ((s.fmod n : ℤ) : ℚ) / (n : ℚ) ≤ 1 := by
      rw [div_le_one hnQ]
      exact_mod_cast hrn.le
    have he : ((s.fdiv n + 1 : ℤ) : ℚ) - (s : ℚ) / (n : ℚ)
        = 1 - ((s.fmod n : ℤ) : ℚ) / (n : ℚ) := by
      push_cast
      linarith
    rw [he, abs_of_nonneg (by linarith)]
    have hhalf : (1 : ℚ) / 2 ≤ ((s.fmod n : ℤ) : ℚ) / (n : ℚ) := by
      rw [div_le_div_iff₀ (by norm_num : (0 : ℚ) < 2) hnQ]
      have : ((n : ℤ) : ℚ) ≤ ((2 * s.fmod n : ℤ) : ℚ) := by exact_mod_cast hge
      push_cast at this
      linarith
    linarith
  simp only [roundMeanDiv]
  rw [hrem]
  split_ifs with h1 h2 h3
  · exact hA (by omega)
  · exact hB (by omega)
  · exact hA (by omega)
  · exact hB (by omega)

theorem roundMeanDiv_one (s : ℤ) : roundMeanDiv s 1 = s := by
  simp [roundMeanDiv, Int.fdiv_one]

theorem listMax_mem : ∀ (l : List ℤ), l ≠ [] → listMax l ∈ l
  | [], h => absurd rfl h
  | [a], _ => by simp [listMax]
  | a :: b :: rest, _ => by
    simp only [listMax]
    rcases max_cases a (listMax (b :: rest)) with ⟨he, -⟩ | ⟨he, -⟩
    · rw [he]; exact List.mem_cons_self a _
    · rw [he]
      exact List.mem_cons_of_mem a (listMax_mem (b :: rest) (by simp))

theorem listMax_le : ∀ (l : List ℤ), ∀ x ∈ l, x ≤ listMax l
  | [], x, hx => absurd hx (by simp)
  | [a], x, hx => by
    simp only [List.mem_singleton] at hx
    simp [listMax, hx]
  | a :: b :: rest, x, hx => by
    simp only [listMax]
    rcases List.mem_cons.mp hx with h | h
    · rw [h]; exact le_max_left _ _
    · exact le_trans (listMax_le (b :: rest) x h) (le_max_right _ _)

instance : IsTotal ℕ yearGe := ⟨fun a b => (Nat.le_total b a)⟩

instance : IsTrans ℕ yearGe := ⟨fun _ _ _ h1 h2 => Nat.le_trans h2 h1⟩

theorem yearly_summary_map_year (ts : List (ParsedRow × ℤ)) :
    (yearly_summary ts).map YearRow.year
      = List.insertionSort yearGe ((ts.map (fun e => e.1.year)).dedup) := by
  unfold yearly_summary
  rw [List.map_map]
  exact List.map_id' _

theorem groupSalaries_ne_nil {ts : List (ParsedRow × ℤ)} {y : ℕ}
    (hy : y ∈ (ts.map (fun e => e.1.year)).dedup) :
    groupSalaries ts y ≠ [] := by
  obtain ⟨e, he, hey⟩ := List.mem_map.mp (List.mem_dedup.mp hy)
  unfold groupSalaries
  intro hnil
  rw [List.map_eq_nil_iff] at hnil
  exact (List.filter_eq_nil_iff.mp hnil e he) (by simpa using hey)

/-- **C2.** `yearly_summary` has one row per distinct year, ordered
strictly descending by year; each row's total is the sum of that year's
amounts, its monthly average is the arithmetic mean of the amounts of the
months present that year rounded to a nearest integer (within 1/2 of the
exact mean; in particular a single-month year has `month_avg` equal to the
year total), and its max is a maximal single amount of that year. -/
theorem yearly_summary_spec (ts : List (ParsedRow × ℤ)) :
    ((yearly_summary ts).map YearRow.year).Perm
        ((ts.map (fun e => e.1.year)).dedup)
    ∧ ((yearly_summary ts).map YearRow.year).Pairwise (fun a b => b < a)
    ∧ ∀ r ∈ yearly_summary ts,
        r.year_total = (groupSalaries ts r.year).sum
        ∧ |(r.month_avg : ℚ) - ((groupSalaries ts r.year).sum : ℚ)
              / ((groupSalaries ts r.year).length : ℚ)| ≤ 1 / 2
        ∧ ((groupSalaries ts r.year).length = 1 →
            r.month_avg = r.year_total)
        ∧ r.max_month_salary ∈ groupSalaries ts r.year
        ∧ ∀ a ∈ groupSalaries ts r.year, a ≤ r.max_month_salary := by
  have hperm : (List.insertionSort yearGe
      ((ts.map (fun e => e.1.year)).dedup)).Perm
        ((ts.map (fun e => e.1.year)).dedup) :=
    List.perm_insertionSort yearGe _
  refine ⟨?_, ?_, ?_⟩
  · rw [yearly_summary_map_year]
    exact hperm
  · rw [yearly_summary_map_year]
    have hs : List.Pairwise yearGe (List.insertionSort yearGe
        ((ts.map (fun e => e.1.year)).dedup)) :=
      List.sorted_insertionSort yearGe _
    have hnd : (List.insertionSort yearGe
        ((ts.map (fun e => e.1.year)).dedup)).Nodup :=
      hperm.symm.nodup (List.nodup_dedup _)
    refine (hs.and hnd).imp ?_
    intro a b hab
    have h1 : b ≤ a := hab.1
    have h2 : a ≠ b := hab.2
    omega
  · intro r hr
    unfold yearly_summary at hr
    obtain ⟨y, hy, hyr⟩ := List.mem_map.mp hr
    have hydedup : y ∈ (ts.map (fun e => e.1.year)).dedup :=
      hperm.mem_iff.mp hy
    have hne := groupSalaries_ne_nil hydedup
    have hlen : 0 < (groupSalaries ts y).length :=
      List.length_pos.mpr hne
    subst hyr
    refine ⟨rfl, ?_, ?_, listMax_mem _ hne, listMax_le _⟩
    · exact roundMeanDiv_close (groupSalaries ts y).sum
        (groupSalaries ts y).length hlen
    · intro h1
      show roundMeanDiv (groupSalaries ts y).sum
        (groupSalaries ts y).length = _
      rw [h1, roundMeanDiv_one]

/-- **C2 witness**: the spec's worked example, 2024 holding months 1 and 3
(amounts 100000 and 50000) and 2025 holding month 1 (amount 200000); the
2024 row of the summary. -/
theorem yearly_summary_spec_witness :
    ((⟨2024, 150000, 75000, 100000⟩ : YearRow) ∈ yearly_summary
        [(⟨"2024-01", 100000, "t0", 2024, 1⟩, 100000),
         (⟨"2024-03", 50000, "t1", 2024, 3⟩, 150000),
         (⟨"2025-01", 200000, "t3", 2025, 1⟩, 350000)])
    ∧ ((⟨2024, 150000, 75000, 100000⟩ : YearRow).year_total
          = (groupSalaries
            [(⟨"2024-01", 100000, "t0", 2024, 1⟩, 100000),
             (⟨"2024-03", 50000, "t1", 2024, 3⟩, 150000),
             (⟨"2025-01", 200000, "t3", 2025, 1⟩, 350000)] 2024).sum
        ∧ |((⟨2024, 150000, 75000, 100000⟩ : YearRow).month_avg : ℚ)
              - ((groupSalaries
                [(⟨"2024-01", 100000, "t0", 2024, 1⟩, 100000),
                 (⟨"2024-03", 50000, "t1", 2024, 3⟩, 150000),
                 (⟨"2025-01", 200000, "t3", 2025, 1⟩, 350000)] 2024).sum : ℚ)
              / ((groupSalaries
                [(⟨"2024-01", 100000, "t0", 2024, 1⟩, 100000),
                 (⟨"2024-03", 50000, "t1", 2024, 3⟩, 150000),
                 (⟨"2025-01", 200000, "t3", 2025, 1⟩, 350000)] 2024).length : ℚ)|
            ≤ 1 / 2
        ∧ ((groupSalaries
            [(⟨"2024-01", 100000, "t0", 2024, 1⟩, 100000),
             (⟨"2024-03", 50000, "t1", 2024, 3⟩, 150000),
             (⟨"2025-01", 200000, "t3", 2025, 1⟩, 350000)] 2024).length = 1 →
            (⟨2024, 150000, 75000, 100000⟩ : YearRow).month_avg
              = (⟨2024, 150000, 75000, 100000⟩ : YearRow).year_total)
        ∧ (⟨2024, 150000, 75000, 100000⟩ : YearRow).max_month_salary
            ∈ groupSalaries
              [(⟨"2024-01", 100000, "t0", 2024, 1⟩, 100000),
               (⟨"2024-03", 50000, "t1", 2024, 3⟩, 150000),
               (⟨"2025-01", 200000, "t3", 2025, 1⟩, 350000)] 2024
        ∧ ∀ a ∈ groupSalaries
              [(⟨"2024-01", 100000, "t0", 2024, 1⟩, 100000),
               (⟨"2024-03", 50000, "t1", 2024, 3⟩, 150000),
               (⟨"2025-01", 200000, "t3", 2025, 1⟩, 350000)] 2024,
            a ≤ (⟨2024, 150000, 75000, 100000⟩ : YearRow).max_month_salary) :=
  ⟨by decide,
    (yearly_summary_spec
      [(⟨"2024-01", 100000, "t0", 2024, 1⟩, 100000),
       (⟨"2024-03", 50000, "t1", 2024, 3⟩, 150000),
       (⟨"2025-01", 200000, "t3", 2025, 1⟩, 350000)]).2.2
      ⟨2024, 150000, 75000, 100000⟩ (by decide)⟩

theorem sum_map_filter_split {α : Type} (g : α → ℤ) (p : α → Bool) :
    ∀ (l : List α),
      ((l.filter p).map g).sum + ((l.filter (fun a => ! p a)).map g).sum
        = (l.map g).sum
  | [] => rfl
  | a :: l => by
    have ih := sum_map_filter_split g p l
    cases hpa : p a
    · rw [List.filter_cons_of_neg (by simp [hpa]),
        List.filter_cons_of_pos (by simp [hpa])]
      simp only [List.map_cons, List.sum_cons]
      linarith
    · rw [List.filter_cons_of_pos (by simp [hpa]),
        List.filter_cons_of_neg (by simp [hpa])]
      simp only [List.map_cons, List.sum_cons]
      linarith

theorem groupSalaries_filter_ne (ts : List (ParsedRow × ℤ)) (y y2 : ℕ)
    (h : y2 ≠ y) :
    groupSalaries (ts.filter (fun e => ¬ e.1.year = y)) y2
      = groupSalaries ts y2 := by
  unfold groupSalaries
  rw [List.filter_filter]
  refine congrArg _ (List.filter_congr ?_)
  intro e _
  by_cases h2 : e.1.year = y2
  · simp [h2, h]
  · simp [h2]

theorem sum_fibers : ∀ (years : List ℕ) (ts : List (ParsedRow × ℤ)),
    years.Nodup → (∀ e ∈ ts, e.1.year ∈ years) →
    (years.map (fun y => (groupSalaries ts y).sum)).sum
      = (ts.map (fun e => e.1.salary)).sum
  | [], ts, _, hall => by
    have hts : ts = [] :=
      List.eq_nil_iff_forall_not_mem.mpr (fun e he => by simpa using hall e he)
    rw [hts]
    rfl
  | y :: ys, ts, hN, hall => by
    obtain ⟨hy_not, hysN⟩ := List.nodup_cons.mp hN
    have h2 : ∀ e ∈ ts.filter (fun e => ¬ e.1.year = y), e.1.year ∈ ys := by
      intro e he
      obtain ⟨hets, hne⟩ := List.mem_filter.mp he
      rcases List.mem_cons.mp (hall e hets) with h | h
      · exact absurd h (by simpa using hne)
      · exact h
    have hmap : ys.map (fun y2 => (groupSalaries ts y2).sum)
        = ys.map (fun y2 =>
            (groupSalaries (ts.filter (fun e => ¬ e.1.year = y)) y2).sum) :=
      List.map_congr_left (fun y2 hy2 => by
        rw [groupSalaries_filter_ne ts y y2 (fun hc => hy_not (hc ▸ hy2))])
    simp only [List.map_cons, List.sum_cons]
    rw [hmap, sum_fibers ys (ts.filter (fun e => ¬ e.1.year = y)) hysN h2]
    have hsplit := sum_map_filter_split (fun e : ParsedRow × ℤ => e.1.salary)
      (fun e => decide (e.1.year = y)) ts
    have hpred : (ts.filter (fun e => ¬ e.1.year = y))
        = ts.filter (fun e => ! decide (e.1.year = y)) := by
      refine List.filter_congr ?_
      intro e _
      simp [decide_not]
    rw [hpred]
    unfold groupSalaries
    linarith [hsplit]

/-- **C7.** the year totals of `yearly_summary` sum to the final
cumulative value of `build_timeseries` on the same input (0 for empty
input): grand-total consistency of the two views. -/
theorem grand_total_consistency (df : List SalaryRow) :
    ((yearly_summary (build_timeseries df)).map YearRow.year_total).sum
      = finalCumulative (build_timeseries df) := by
  have hL : (yearly_summary (build_timeseries df)).map YearRow.year_total
      = (List.insertionSort yearGe
          (((build_timeseries df).map (fun e => e.1.year)).dedup)).map
            (fun y => (groupSalaries (build_timeseries df) y).sum) := by
    unfold yearly_summary
    rw [List.map_map]
    rfl
  rw [hL]
  rw [((List.perm_insertionSort yearGe
    (((build_timeseries df).map (fun e => e.1.year)).dedup)).map
      (fun y => (groupSalaries (build_timeseries df) y).sum)).sum_eq]
  rw [sum_fibers (((build_timeseries df).map (fun e => e.1.year)).dedup)
    (build_timeseries df) (List.nodup_dedup _)
    (fun e he => List.mem_dedup.mpr
      (List.mem_map_of_mem (fun e => e.1.year) he))]
  have h3 : (build_timeseries df).map (fun e => e.1.salary)
      = (List.insertionSort keyLe (parseRows df)).map ParsedRow.salary := by
    rw [← build_timeseries_map_fst, List.map_map]
    rfl
  rw [h3]
  have h2 := addCumulative_getLastD 0 (List.insertionSort keyLe (parseRows df))
  unfold finalCumulative
  simpa using h2.symm

/-- **C3.** the tab1 progress computation: the target constant is the
fixed positive 1,500,000 (so the `target > 0` case is the only one the
program ever evaluates), progress is `total / target` clamped to [0, 1],
remaining is `target - total` (negative when over target), and the two
worked examples of the spec hold. -/
theorem tab1_progress_spec :
    (0 : ℤ) < TARGET
    ∧ (∀ yt : ℤ, 0 ≤ tab1_progress yt ∧ tab1_progress yt ≤ 1)
    ∧ (∀ yt : ℤ, tab1_progress yt
        = min (max ((yt : ℚ) / (TARGET : ℚ)) 0) 1)
    ∧ (∀ yt : ℤ, tab1_diff yt = TARGET - yt)
    ∧ tab1_progress 750000 = 1 / 2
    ∧ tab1_diff 750000 = 750000
    ∧ tab1_progress 1600000 = 1
    ∧ tab1_diff 1600000 = -100000 := by
  refine ⟨by norm_num [TARGET],
    fun yt => ⟨le_min (le_max_right _ _) zero_le_one, min_le_right _ _⟩,
    fun yt => rfl, fun yt => rfl, ?_, by norm_num [tab1_diff, TARGET], ?_,
    by norm_num [tab1_diff, TARGET]⟩
  · unfold tab1_progress TARGET
    norm_num
  · unfold tab1_progress TARGET
    norm_num

theorem filter_monthNum_cases :
    ∀ (yts : List (ParsedRow × ℤ)),
      (yts.map (fun e => e.1.monthNum)).Nodup → ∀ (j : ℕ),
      yts.filter (fun e => e.1.monthNum = j) = []
      ∨ ∃ e, yts.filter (fun e => e.1.monthNum = j) = [e]
  | [], _, _ => Or.inl rfl
  | x :: xs, hN, j => by
    rw [List.map_cons] at hN
    obtain ⟨hx, hxs⟩ := List.nodup_cons.mp hN
    by_cases hj : x.1.monthNum = j
    · right
      refine ⟨x, ?_⟩
      rw [List.filter_cons_of_pos (by simpa using hj)]
      have : xs.filter (fun e => e.1.monthNum = j) = [] := by
        rw [List.filter_eq_nil_iff]
        intro e he hej
        refine hx ?_
        rw [hj, ← of_decide_eq_true hej]
        exact List.mem_map_of_mem (fun e => e.1.monthNum) he
      rw [this]
    · rw [List.filter_cons_of_neg (by simpa using hj)]
      exact filter_monthNum_cases xs hxs j

theorem flatMap_eq_map_of_singleton {β γ : Type} :
    ∀ (js : List β) (f : β → List γ) (g : β → γ),
      (∀ j ∈ js, f j = [g j]) → js.flatMap f = js.map g
  | [], _, _, _ => rfl
  | j :: rest, f, g, h => by
    rw [List.flatMap_cons, h j (List.mem_cons_self j rest), List.map_cons,
      List.singleton_append,
      flatMap_eq_map_of_singleton rest f g
        (fun x hx => h x (List.mem_cons_of_mem j hx))]

theorem filter_year_month (ts : List (ParsedRow × ℤ)) (y j : ℕ) :
    ts.filter (fun e => e.1.year = y ∧ e.1.monthNum = j)
      = (ts.filter (fun e => e.1.year = y)).filter
          (fun e => e.1.monthNum = j) := by
  rw [List.filter_filter]
  refine List.filter_congr ?_
  intro e _
  by_cases h1 : e.1.year = y <;> by_cases h2 : e.1.monthNum = j <;>
    simp [h1, h2]

/-- **C6.** the monthly-skeleton merge for a year with pairwise-distinct
month numbers (what the primary-key store guarantees) produces exactly 12
slots, one per calendar month 1-12 in order; a slot whose month has a
record of that year holds the stored amount and a slot with no matching
record is explicitly absent (`none`, not zero). -/
theorem monthlySkeleton_twelve_slots (ts : List (ParsedRow × ℤ)) (y : ℕ)
    (hN : ((ts.filter (fun e => e.1.year = y)).map
        (fun e => e.1.monthNum)).Nodup) :
    (monthlySkeleton ts y).length = 12
    ∧ monthlySkeleton ts y = skeletonSpec ts y := by
  have harm : ∀ j ∈ List.range' 1 12,
      (match (ts.filter (fun e => e.1.year = y)).filter
          (fun e => e.1.monthNum = j) with
        | [] => [(j, (none : Option ℤ))]
        | ms => ms.map (fun e => (j, some e.1.salary)))
      = [(j, (((ts.filter (fun e => e.1.year = y)).filter
          (fun e => e.1.monthNum = j)).head?).map (fun e => e.1.salary))] := by
    intro j _
    rcases filter_monthNum_cases (ts.filter (fun e => e.1.year = y)) hN j
      with hc | ⟨e, hc⟩ <;> rw [hc] <;> rfl
  have hmain : monthlySkeleton ts y = skeletonSpec ts y := by
    unfold monthlySkeleton skeletonSpec
    rw [flatMap_eq_map_of_singleton (List.range' 1 12) _
      (fun j => (j, (((ts.filter (fun e => e.1.year = y)).filter
        (fun e => e.1.monthNum = j)).head?).map (fun e => e.1.salary)))
      harm]
    refine List.map_congr_left ?_
    intro j _
    rw [filter_year_month]
  exact ⟨by rw [hmain]; unfold skeletonSpec; rw [List.length_map]; rfl, hmain⟩

/-- **C6 witness**: a series holding only month 3 of 2024 (amount 123)
yields twelve slots with months 1, 2 and 4-12 absent and slot 3 holding
123, exactly the spec's example. -/
theorem monthlySkeleton_twelve_slots_witness :
    ((([(⟨"2024-03", 123, "t", 2024, 3⟩, (123 : ℤ))] :
        List (ParsedRow × ℤ)).filter (fun e => e.1.year = 2024)).map
          (fun e => e.1.monthNum)).Nodup
    ∧ ((monthlySkeleton [(⟨"2024-03", 123, "t", 2024, 3⟩, (123 : ℤ))]
          2024).length = 12
      ∧ monthlySkeleton [(⟨"2024-03", 123, "t", 2024, 3⟩, (123 : ℤ))] 2024
          = skeletonSpec [(⟨"2024-03", 123, "t", 2024, 3⟩, (123 : ℤ))] 2024) :=
  ⟨by decide,
    monthlySkeleton_twelve_slots
      [(⟨"2024-03", 123, "t", 2024, 3⟩, (123 : ℤ))] 2024 (by decide)⟩

end SalaryTracker
